import Mathlib

/-!
Verification development for the MetaClaw repository (Go).

Each Go package that the claims touch is shallow-embedded as a Lean
namespace below.  Pure Go functions become Lean functions; filesystem
and process state become explicit arguments (an in-memory file-system
value, a host-environment function, an availability predicate);
fallible Go functions return `Except String`.

SHA-256 is not re-implemented: everywhere the source calls
`crypto/sha256`, the embedding is parameterised by an abstract hex
encoder `hexF : List Nat → String` standing for
`hex.EncodeToString(sha256.Sum256(..))`.  Statements that depend on the
hash being collision-free carry the corresponding inequality as an
explicit hypothesis.

Go's `strings.ToLower` / `strings.TrimSpace` are modelled for the ASCII
strings that actually flow through the program; Go maps are modelled as
association lists with overwrite-on-insert, and map iteration in sorted
key order (the source always sorts keys before iterating where order
matters).
-/

namespace Metaclaw

/-- ASCII lower-casing of one character (model of what `strings.ToLower`
does on the ASCII container-status strings handled by the program). -/
def asciiLower (c : Char) : Char :=
  if 'A' ≤ c ∧ c ≤ 'Z' then Char.ofNat (c.toNat + 32) else c

/-- Model of Go `strings.ToLower` restricted to ASCII input. -/
def goToLower (s : String) : String :=
  ⟨s.data.map asciiLower⟩

/-- Model of Go `strings.TrimSpace` (ASCII whitespace). -/
def goTrimSpace (s : String) : String :=
  ⟨(s.data.dropWhile Char.isWhitespace).reverse.dropWhile Char.isWhitespace |>.reverse⟩

/-- Lexicographic comparison of character lists by code point (for the
ASCII strings this program handles, identical to Go's byte-wise string
comparison). -/
def charListLt : List Char → List Char → Bool
  | [], [] => false
  | [], _ :: _ => true
  | _ :: _, [] => false
  | a :: as, b :: bs =>
    if a.toNat < b.toNat then true
    else if b.toNat < a.toNat then false
    else charListLt as bs

/-- Model of Go's `<` on strings. -/
def strLt (a b : String) : Bool :=
  charListLt a.data b.data

/-- Model of Go's `<=` on strings. -/
def strLe (a b : String) : Bool :=
  !strLt b a

/-- Insert a string into a sorted list of strings (helper for
`sort.Strings`). -/
def insertStr (x : String) : List String → List String
  | [] => [x]
  | y :: ys => if strLe x y then x :: y :: ys else y :: insertStr x ys

/-- Model of Go `sort.Strings` (insertion sort; `sort.Strings` sorts
ascending lexicographically). -/
def sortStrings : List String → List String
  | [] => []
  | x :: xs => insertStr x (sortStrings xs)

/-- Association-list lookup, the model of reading a Go
`map[string]string`. -/
def mapLookup (m : List (String × String)) (k : String) : Option String :=
  (m.find? (fun e => e.1 = k)).map Prod.snd

/-- Association-list insert with overwrite, the model of writing a Go
`map[string]string`. -/
def mapInsert (m : List (String × String)) (k v : String) : List (String × String) :=
  if (m.find? (fun e => e.1 = k)).isSome then
    m.map (fun e => if e.1 = k then (k, v) else e)
  else
    m ++ [(k, v)]

/-- The keys of a Go `map[string]string` model. -/
def mapKeys (m : List (String × String)) : List String :=
  m.map Prod.fst

end Metaclaw

namespace Metaclaw.policy

/-- `policy.NetworkPolicy` from internal/policy/policy.go. -/
structure NetworkPolicy where
  mode : String
  allowed : Bool
deriving DecidableEq, Repr

/-- `policy.MountPolicy` from internal/policy/policy.go. -/
structure MountPolicy where
  source : String
  target : String
  readOnly : Bool
deriving DecidableEq, Repr

/-- `policy.Policy` from internal/policy/policy.go. -/
structure Policy where
  version : String
  network : NetworkPolicy
  mounts : List MountPolicy
  envAllowlist : List String
  workdir : String
  user : String
deriving DecidableEq, Repr

/-- Comparison used by `sort.Slice` on mounts in `policy.Compile`:
order by source, break ties by target. -/
def mountLess (a b : MountPolicy) : Bool :=
  if a.source = b.source then Metaclaw.strLt a.target b.target
  else Metaclaw.strLt a.source b.source

/-- Insertion step for the mount sort. -/
def insertMount (x : MountPolicy) : List MountPolicy → List MountPolicy
  | [] => [x]
  | y :: ys => if mountLess y x then y :: insertMount x ys else x :: y :: ys

/-- Model of the `sort.Slice` call on mounts in `policy.Compile`. -/
def sortMounts : List MountPolicy → List MountPolicy
  | [] => []
  | x :: xs => insertMount x (sortMounts xs)

end Metaclaw.policy

namespace Metaclaw.v1

/-- `v1.NetworkSpec` from the clawfile schema. -/
structure NetworkSpec where
  mode : String
deriving DecidableEq, Repr

/-- `v1.MountSpec` from the clawfile schema. -/
structure MountSpec where
  source : String
  target : String
  readOnly : Bool
deriving DecidableEq, Repr

/-- `v1.HabitatSpec` from the clawfile schema.  The env map is
modelled as an association list. -/
structure HabitatSpec where
  network : NetworkSpec
  mounts : List MountSpec
  env : List (String × String)
  workdir : String
  user : String
deriving DecidableEq, Repr

/-- `v1.LLMSpec` from the clawfile schema (`LLMProvider` is a string
type in Go). -/
structure LLMSpec where
  provider : String
  model : String
  baseURL : String
  apiKeyEnv : String
deriving DecidableEq, Repr

/-- `v1.ResourceSpec` from the clawfile schema. -/
structure ResourceSpec where
  cpu : String
  memory : String
deriving DecidableEq, Repr

/-- `v1.RuntimeSpec` from the clawfile schema. -/
structure RuntimeSpec where
  target : String
  image : String
  resources : ResourceSpec
deriving DecidableEq, Repr

/-- `v1.SkillRef` from the clawfile schema. -/
structure SkillRef where
  path : String
  id : String
  version : String
  digest : String
deriving DecidableEq, Repr

/-- `v1.AgentSpec` from the clawfile schema (soul/command omitted:
unused by the embedded operations). -/
structure AgentSpec where
  name : String
  species : String
  lifecycle : String
  habitat : HabitatSpec
  llm : LLMSpec
  skills : List SkillRef
  runtime : RuntimeSpec
deriving DecidableEq, Repr

/-- `v1.Clawfile` from the clawfile schema. -/
structure Clawfile where
  apiVersion : String
  kind : String
  agent : AgentSpec
deriving DecidableEq, Repr

end Metaclaw.v1

namespace Metaclaw.policy

open Metaclaw

/-- `policy.Compile` from internal/policy/policy.go: project a
normalized clawfile to a runtime policy.  Faithful to the source: the
env allowlist is built from the habitat env keys only (lines 57-60),
then sorted; the LLM-derived keys are never consulted. -/
def Compile (cfg : v1.Clawfile) : Except String Policy := do
  let mode := cfg.agent.habitat.network.mode
  let network ←
    match mode with
    | "none" => pure { mode := "none", allowed := false : NetworkPolicy }
    | "outbound" => pure { mode := mode, allowed := true : NetworkPolicy }
    | "all" => pure { mode := mode, allowed := true : NetworkPolicy }
    | _ => Except.error ("unsupported network mode: " ++ mode)
  let mounts := sortMounts (cfg.agent.habitat.mounts.map
    (fun m => { source := m.source, target := m.target, readOnly := m.readOnly : MountPolicy }))
  let envAllowlist := sortStrings (mapKeys cfg.agent.habitat.env)
  pure {
    version := "metaclaw.policy/v1"
    network := network
    mounts := mounts
    envAllowlist := envAllowlist
    workdir := cfg.agent.habitat.workdir
    user := cfg.agent.habitat.user
  }

end Metaclaw.policy

namespace Metaclaw.llm

open Metaclaw

/-- `llm.RuntimeOptions` from internal/llm/config.go. -/
structure RuntimeOptions where
  apiKey : String
  apiKeyEnv : String
deriving DecidableEq, Repr

/-- `llm.Resolved` from internal/llm/config.go. -/
structure Resolved where
  enabled : Bool
  env : List (String × String)
deriving DecidableEq, Repr

/-- `llm.Resolve` from internal/llm/config.go.  The host process
environment (`os.Getenv`) is passed in as a function.  Faithful to the
source: the provider switch mirrors `OPENAI_API_KEY` /
`OPENAI_BASE_URL` for `openai_compatible` and `gemini_openai` and
`GEMINI_API_KEY` for `gemini_openai`; there is no `anthropic` case, so
no `ANTHROPIC_*` name is ever inserted except through
`spec.APIKeyEnv`. -/
def Resolve (spec : v1.LLMSpec) (opts : RuntimeOptions) (getenv : String → String) :
    Except String Resolved := do
  if spec.provider = "" then
    return { enabled := false, env := [] }
  let key := goTrimSpace opts.apiKey
  let key ←
    if key = "" ∧ goTrimSpace opts.apiKeyEnv ≠ "" then
      let k := goTrimSpace (getenv (goTrimSpace opts.apiKeyEnv))
      if k = "" then
        Except.error ("host env " ++ goTrimSpace opts.apiKeyEnv ++ " is empty")
      else pure k
    else pure key
  let key := if key = "" then goTrimSpace (getenv spec.apiKeyEnv) else key
  if key = "" then
    Except.error ("missing LLM API key: set --llm-api-key, --llm-api-key-env, or host env "
      ++ spec.apiKeyEnv)
  else
    let env := mapInsert [] spec.apiKeyEnv key
    let env := mapInsert env "METACLAW_LLM_PROVIDER" spec.provider
    let env := mapInsert env "METACLAW_LLM_MODEL" spec.model
    let env := if spec.baseURL ≠ "" then mapInsert env "METACLAW_LLM_BASE_URL" spec.baseURL else env
    let env :=
      if spec.provider = "openai_compatible" ∨ spec.provider = "gemini_openai" then
        let env := mapInsert env "OPENAI_API_KEY" key
        if spec.baseURL ≠ "" then mapInsert env "OPENAI_BASE_URL" spec.baseURL else env
      else env
    let env :=
      if spec.provider = "gemini_openai" then mapInsert env "GEMINI_API_KEY" key else env
    pure { enabled := true, env := env }

/-- Set-style insert used to model a Go `map[string]struct{}`. -/
def setInsert (l : List String) (k : String) : List String :=
  if k ∈ l then l else l ++ [k]

/-- `llm.AllowedEnvKeys` from internal/llm/config.go (the key-set is a
Go map, modelled by `setInsert`; the model returns the same sorted key
list the source returns). -/
def AllowedEnvKeys (spec : v1.LLMSpec) : List String :=
  if spec.provider = "" then []
  else
    let keySet := setInsert (setInsert (setInsert [] spec.apiKeyEnv)
      "METACLAW_LLM_PROVIDER") "METACLAW_LLM_MODEL"
    let keySet := if spec.baseURL ≠ "" then setInsert keySet "METACLAW_LLM_BASE_URL" else keySet
    let keySet :=
      if spec.provider = "openai_compatible" ∨ spec.provider = "gemini_openai" then
        let keySet := setInsert keySet "OPENAI_API_KEY"
        if spec.baseURL ≠ "" then setInsert keySet "OPENAI_BASE_URL" else keySet
      else keySet
    let keySet := if spec.provider = "gemini_openai" then setInsert keySet "GEMINI_API_KEY" else keySet
    sortStrings keySet

end Metaclaw.llm

namespace Metaclaw.runtime

open Metaclaw

/-- The three runtime targets (`spec.TargetPodman/Apple/Docker`). -/
def targets : List String := ["podman", "apple_container", "docker"]

/-- `runtime.ParseTarget` from internal/runtime/runtime.go: the empty
string and the three targets parse, anything else is an error. -/
def ParseTarget (v : String) : Except String String :=
  if v = "" ∨ v ∈ targets then Except.ok v
  else Except.error ("invalid runtime target: " ++ v)

/-- `runtime.hostDefaultOrder` from internal/runtime/runtime.go,
parameterised by `runtime.GOOS`. -/
def hostDefaultOrder (goos : String) : List String :=
  if goos = "darwin" then ["apple_container", "docker", "podman"]
  else ["podman", "docker", "apple_container"]

/-- The default-order scan at the end of `Resolver.Resolve`: first
registered, available adapter wins. -/
def firstAvailable (avail : String → Bool) : List String → Except String String
  | [] => Except.error "no supported runtime available; install podman, docker, or apple container"
  | t :: ts => if t ∈ targets ∧ avail t then Except.ok t else firstAvailable avail ts

/-- `Resolver.Resolve` from internal/runtime/runtime.go.  The adapter
map of `NewResolver` always contains exactly `targets`; each adapter's
`Available(ctx)` probe is the `avail` argument.  Returns the selected
target name (the Go function also returns the adapter value itself,
which is determined by the target). -/
def Resolve (avail : String → Bool) (goos cliOverride clawfileTarget : String) :
    Except String String :=
  if cliOverride ≠ "" then
    match ParseTarget cliOverride with
    | Except.error e => Except.error e
    | Except.ok t =>
      if t ∈ targets ∧ avail t then Except.ok t
      else Except.error ("runtime " ++ cliOverride ++ " is not available on this host")
  else if clawfileTarget ≠ "" then
    match ParseTarget clawfileTarget with
    | Except.error e => Except.error e
    | Except.ok t =>
      if t ∈ targets ∧ avail t then Except.ok t
      else Except.error ("runtime " ++ clawfileTarget ++ " declared in clawfile is not available")
  else
    firstAvailable avail (hostDefaultOrder goos)

end Metaclaw.runtime

namespace Metaclaw.podman

open Metaclaw Metaclaw.policy

/-- `policyFlags` from internal/runtime/podman/podman.go.  The env map
is iterated in sorted key order, exactly as the source does; env keys
are emitted by reference only (`-e KEY`). -/
def policyFlags (p : Policy) (env : List (String × String)) (workdir user cpu memory : String) :
    List String :=
  let args : List String :=
    match p.network.mode with
    | "none" => ["--network=none"]
    | "outbound" => ["--network=bridge"]
    | "all" => ["--network=host"]
    | _ => []
  let args := args ++ p.mounts.flatMap (fun m =>
    ["-v", m.source ++ ":" ++ m.target ++ (if m.readOnly then ":ro" else "")])
  let keys := sortStrings (mapKeys env)
  let args := args ++ keys.flatMap (fun k => ["-e", k])
  let args := args ++ (if workdir ≠ "" then ["-w", workdir] else [])
  let args := args ++ (if user ≠ "" then ["-u", user] else [])
  let args := args ++ (if cpu ≠ "" then ["--cpus", cpu] else [])
  let args := args ++ (if memory ≠ "" then ["--memory", memory] else [])
  args

end Metaclaw.podman

namespace Metaclaw.docker

open Metaclaw Metaclaw.policy

/-- `policyFlags` from internal/runtime/docker/docker.go.  Faithful to
the source: only network mode `none` emits a flag, there are no
cpu/memory parameters, and each env entry is emitted inline as
`-e KEY=VALUE` (`fmt.Sprintf("%s=%s", k, env[k])`). -/
def policyFlags (p : Policy) (env : List (String × String)) (workdir user : String) :
    List String :=
  let args : List String := if p.network.mode = "none" then ["--network=none"] else []
  let args := args ++ p.mounts.flatMap (fun m =>
    ["-v", m.source ++ ":" ++ m.target ++ (if m.readOnly then ":ro" else "")])
  let keys := sortStrings (mapKeys env)
  let args := args ++ keys.flatMap (fun k => ["-e", k ++ "=" ++ ((mapLookup env k).getD "")])
  let args := args ++ (if workdir ≠ "" then ["-w", workdir] else [])
  let args := args ++ (if user ≠ "" then ["-u", user] else [])
  args

end Metaclaw.docker

namespace Metaclaw.manager

open Metaclaw

/-- `store.RunRecord` from internal/store/sqlite/store.go (exit code is
`*int` in Go, modelled as `Option Int`). -/
structure RunRecord where
  runID : String
  capsuleID : String
  capsulePath : String
  status : String
  lifecycle : String
  runtimeTarget : String
  containerID : String
  exitCode : Option Int
  startedAt : String
  endedAt : String
  lastError : String
deriving DecidableEq, Repr

/-- `logs.Event` fields used by the manager (internal/logs). -/
structure Event where
  phase : String
  runtime : String
  containerID : String
  message : String
  error : String
deriving DecidableEq, Repr

/-- Arguments of a `store.UpdateRunCompletion` call. -/
structure StoreCompletion where
  runID : String
  status : String
  containerID : String
  exitCode : Option Int
  lastError : String
deriving DecidableEq, Repr

/-- `mapContainerStatus` from internal/manager/manager.go: normalise
the inspected backend status (trim + ASCII lower) and map it to the
run-status string and a terminal flag. -/
def mapContainerStatus (status : String) (exitCode : Option Int) : String × Bool :=
  let s := goToLower (goTrimSpace status)
  if s = "running" ∨ s = "created" ∨ s = "restarting" ∨ s = "paused" then
    ("running", false)
  else if s = "exited" ∨ s = "dead" ∨ s = "stopped" then
    if exitCode = some 0 then ("succeeded", true) else ("failed", true)
  else
    ("", false)

/-- Result of one reconciliation step: the returned record, the events
appended to the JSONL log, the `UpdateRunCompletion` store call if one
was made, and the error returned alongside the record (Go returns
`(rec, err)`). -/
structure RefreshOutcome where
  record : RunRecord
  events : List Event
  completion : Option StoreCompletion
  error : Option String
deriving DecidableEq, Repr

/-- `(*Manager).refreshRunStatus` from internal/manager/manager.go.
The I/O front half of the source (ParseTarget on the record's runtime
target, adapter lookup, `Inspect`, `parseContainerInspectState`) enters
as the `inspectParsed` argument: an error from any of those steps is
`Except.error`, otherwise the parsed `(status, exitCode)` pair.  The
Go sequence store-update → record mutation → event append is returned
as one `RefreshOutcome`; `now` is the RFC3339Nano formatting of
`time.Now()` used for `EndedAt`. -/
def refreshRunStatus (rec : RunRecord)
    (inspectParsed : Except String (String × Option Int)) (now : String) : RefreshOutcome :=
  if rec.status ≠ "running" ∨ rec.containerID = "" then
    { record := rec, events := [], completion := none, error := none }
  else
    match inspectParsed with
    | Except.error e => { record := rec, events := [], completion := none, error := some e }
    | Except.ok (containerStatus, exitCode) =>
      let rt := mapContainerStatus containerStatus exitCode
      let runStatus := rt.1
      let terminal := rt.2
      if ¬terminal then
        { record := rec, events := [], completion := none, error := none }
      else
        let lastError :=
          if runStatus = "failed" then
            match exitCode with
            | some c => "detached container exited with code " ++ toString c
            | none => "detached container exited"
          else ""
        let completion : StoreCompletion :=
          { runID := rec.runID, status := runStatus, containerID := rec.containerID
            exitCode := exitCode, lastError := lastError }
        let rec' := { rec with
          status := runStatus
          exitCode := exitCode
          lastError := lastError
          endedAt := now }
        let message := if runStatus = "failed" then "failed" else "completed"
        { record := rec'
          events := [{ phase := "runtime.exit", runtime := rec.runtimeTarget
                       containerID := rec.containerID, message := message, error := lastError }]
          completion := some completion
          error := none }

/-- Little-endian decimal digit expansion with explicit fuel (the fuel
is always sufficient at `n + 1`); models the digits of Go's `%d`. -/
def decDigitsAux : Nat → Nat → List Char
  | 0, _ => []
  | fuel + 1, n =>
    if n < 10 then [Char.ofNat (48 + n)]
    else decDigitsAux fuel (n / 10) ++ [Char.ofNat (48 + n % 10)]

/-- Decimal digit list of a natural number (big-endian). -/
def decDigits (n : Nat) : List Char :=
  decDigitsAux (n + 1) n

/-- Model of Go's `fmt.Sprintf("%0<w>d", n)` for natural `n`:
zero-pad the decimal representation on the left to width `w` (wider
numbers keep all their digits, as in Go). -/
def fmtNat (w n : Nat) : List Char :=
  List.replicate (w - (decDigits n).length) '0' ++ decDigits n

/-- A UTC wall-clock instant as the fields Go's `time.Time` formatting
reads (the `makeRunID` layout uses year, month, day, hour, minute,
second and `Nanosecond()`). -/
structure GoTime where
  year : Nat
  month : Nat
  day : Nat
  hour : Nat
  minute : Nat
  second : Nat
  nanosecond : Nat
deriving DecidableEq, Repr

/-- `makeRunID` from internal/manager/manager.go:
`now.Format("20060102t150405") + fmt.Sprintf("%09d", now.Nanosecond())`.
The Go layout `20060102t150405` prints a 4-digit year, 2-digit month
and day, a literal lowercase `t`, then 2-digit hour, minute and second;
no `Z` is printed. -/
def makeRunID (t : GoTime) : String :=
  ⟨fmtNat 4 t.year ++ fmtNat 2 t.month ++ fmtNat 2 t.day ++ ['t'] ++
    fmtNat 2 t.hour ++ fmtNat 2 t.minute ++ fmtNat 2 t.second ++ fmtNat 9 t.nanosecond⟩

/-- The run-id shape asserted by the claim, transcribed from its words:
`<yyyymmdd>T<HHMMSS>Z` followed by exactly 9 decimal digits — 8 digits,
an uppercase `T`, 6 digits, a `Z`, then 9 digits (25 characters). -/
def claimedRunIDForm (s : String) : Bool :=
  let cs := s.data
  cs.length = 25 ∧
  (cs.take 8).all Char.isDigit ∧
  cs[8]? = some 'T' ∧
  ((cs.drop 9).take 6).all Char.isDigit ∧
  cs[15]? = some 'Z' ∧
  (cs.drop 16).all Char.isDigit

end Metaclaw.manager

namespace Metaclaw.locks

open Metaclaw

/-- One entry of the in-memory file system the lock generator walks: a
regular file with its bytes, or a symbolic link with its target path. -/
inductive FSEntry where
  | file (path : String) (content : List Nat)
  | symlink (path : String) (target : String)
deriving DecidableEq, Repr

/-- The path of a file-system entry. -/
def FSEntry.path : FSEntry → String
  | .file p _ => p
  | .symlink p _ => p

/-- A file system is a finite list of entries (directories are
implicit: every proper prefix of an entry path). -/
abbrev FileSys := List FSEntry

/-- Look up the entry at a path. -/
def findEntry (fs : FileSys) (p : String) : Option FSEntry :=
  fs.find? (fun e => e.path = p)

/-- Resolve a path to regular-file bytes, following symbolic links the
way `os.Open` does (fuel-bounded; the fuel `fs.length + 1` always
suffices on link chains without cycles). -/
def resolveFile (fs : FileSys) : Nat → String → Except String (List Nat)
  | 0, p => Except.error ("too many levels of symbolic links: " ++ p)
  | fuel + 1, p =>
    match findEntry fs p with
    | some (.file _ c) => Except.ok c
    | some (.symlink _ tgt) => resolveFile fs fuel tgt
    | none => Except.error ("open " ++ p ++ ": no such file or directory")

/-- `hashFile` from the locks package: open the path (following
symlinks, as `os.Open` does) and return the hex SHA-256 of its bytes
(`hexF`). -/
def hashFile (hexF : List Nat → String) (fs : FileSys) (p : String) : Except String String :=
  (resolveFile fs (fs.length + 1) p).map hexF

/-- `locks.FileHash` (path plus hex digest). -/
structure FileHash where
  path : String
  sha256 : String
deriving DecidableEq, Repr

/-- `locks.SourceLock`. -/
structure SourceLock where
  version : String
  gitCommit : String
  gitTree : String
  files : List FileHash
deriving DecidableEq, Repr

/-- The relative slash path of `p` under `root` (`filepath.Rel` for a
walk entry, which is always `root ++ "/" ++ rel`). -/
def relUnder (root p : String) : Option String :=
  if (root ++ "/").data.isPrefixOf p.data then
    some ⟨p.data.drop (root ++ "/").data.length⟩
  else none

/-- `shouldExcludeFile` from the locks package: a relative path is
excluded when it equals an exclude entry or lies under one. -/
def shouldExcludeFile (rel : String) (excludeSet : List String) : Bool :=
  excludeSet.any (fun ex => rel = ex ∨ (ex ++ "/").data.isPrefixOf rel.data)

/-- Insertion step for the file-hash sort (`sort.Slice` by path). -/
def insertFileHash (x : FileHash) : List FileHash → List FileHash
  | [] => [x]
  | y :: ys => if strLt y.path x.path then y :: insertFileHash x ys else x :: y :: ys

/-- Model of the `sort.Slice` by path at the end of `fileManifest`. -/
def sortFileHashes : List FileHash → List FileHash
  | [] => []
  | x :: xs => insertFileHash x (sortFileHashes xs)

/-- The walk body of `fileManifest`: visit each entry, keep those under
the root and not excluded, and hash each one via `hashFile` (which
follows symlinks — the walk itself performs no symlink check). -/
def manifestEntries (hexF : List Nat → String) (fs : FileSys) (root : String)
    (excludeSet : List String) : List FSEntry → Except String (List FileHash)
  | [] => Except.ok []
  | e :: rest =>
    match relUnder root e.path with
    | none => manifestEntries hexF fs root excludeSet rest
    | some rel =>
      if shouldExcludeFile rel excludeSet then
        manifestEntries hexF fs root excludeSet rest
      else
        match hashFile hexF fs e.path with
        | Except.error err => Except.error err
        | Except.ok h =>
          match manifestEntries hexF fs root excludeSet rest with
          | Except.error err => Except.error err
          | Except.ok tail => Except.ok ({ path := rel, sha256 := h } :: tail)

/-- `fileManifest` from the locks package: normalise the exclude set
(dropping empty and `"."` entries), walk the tree, hash every non-dir
entry, and sort the result by path. -/
def fileManifest (hexF : List Nat → String) (fs : FileSys) (root : String)
    (excludes : List String) : Except String (List FileHash) :=
  let excludeSet := excludes.filter (fun e => ¬(e = "" ∨ e = "."))
  (manifestEntries hexF fs root excludeSet fs).map sortFileHashes

/-- The UTF-8 bytes of a string (for the streamed
`io.WriteString(h, ..)` calls in `hashPath`; the strings hashed are
ASCII). -/
def strBytes (s : String) : List Nat :=
  s.data.map Char.toNat

/-- `os.Stat`-style directory test on the in-memory file system:
an entry at the path is a file or link (not a dir); otherwise the path
is an implicit directory when some entry lies beneath it. -/
def statIsDir (fs : FileSys) (p : String) : Except String Bool :=
  match findEntry fs p with
  | some _ => Except.ok false
  | none =>
    if fs.any (fun e => (p ++ "/").data.isPrefixOf e.path.data) then Except.ok true
    else Except.error ("stat " ++ p ++ ": no such file or directory")

/-- `hashPath` from the locks package: for a regular file, the digest
is `hashFile` of that file alone; for a directory, SHA-256 over the
concatenated `(path, sha256)` strings of its canonical file manifest.
No sibling capability-contract file is ever consulted in the file
case. -/
def hashPath (hexF : List Nat → String) (fs : FileSys) (p : String) : Except String String :=
  match statIsDir fs p with
  | Except.error e => Except.error e
  | Except.ok false => hashFile hexF fs p
  | Except.ok true =>
    match fileManifest hexF fs p [".git", ".metaclaw"] with
    | Except.error e => Except.error e
    | Except.ok entries =>
      Except.ok (hexF (entries.flatMap (fun e => strBytes e.path ++ strBytes e.sha256)))

/-- `buildSourceLock` from the locks package; `gitMeta` is the
`(commit, tree)` pair `gitMetadata` returns (empty strings outside a
git worktree). -/
def buildSourceLock (hexF : List Nat → String) (fs : FileSys) (root : String)
    (excludes : List String) (gitMeta : String × String) : Except String SourceLock :=
  match fileManifest hexF fs root excludes with
  | Except.error e => Except.error e
  | Except.ok files =>
    Except.ok { version := "metaclaw.sourcelock/v1"
                gitCommit := gitMeta.1
                gitTree := gitMeta.2
                files := files }

/-- The file system of the C4 scenario: a source root `/src` holding a
regular file and a symbolic link whose target lies outside the root. -/
def escapingLinkFS : FileSys :=
  [FSEntry.file "/src/a.txt" [104, 105],
   FSEntry.symlink "/src/external_link" "/outside/secret.txt",
   FSEntry.file "/outside/secret.txt" [115]]

end Metaclaw.locks

namespace Metaclaw.project

open Metaclaw

/-- The state threaded through the managed-file loop of
`project.Upgrade` (lines 89-143): the four report lists of
`UpgradeResult`, the project tree being written, the `managedHashes`
map, and the backups taken under `--force`. -/
structure UpgradeState where
  updated : List String
  added : List String
  skipped : List String
  conflicts : List String
  projectFS : String → Option (List Nat)
  managedHashes : List (String × String)
  backups : List String

/-- `matchAny` from internal/project/upgrade.go (`path.Match` for
globbing patterns is the `pathMatch` argument; `ToSlash` is the
identity on the slash paths modelled here). -/
def matchAny (pathMatch : String → String → Bool) (rel : String)
    (patterns : List String) : Bool :=
  patterns.any fun pat =>
    if ("/**").data.isSuffixOf pat.data then
      let pfx : String := ⟨pat.data.take (pat.data.length - 3)⟩
      rel = pfx ∨ (pfx ++ "/").data.isPrefixOf rel.data
    else if pat.data.any (fun c => c = '*' ∨ c = '?' ∨ c = '[') then
      pathMatch pat rel
    else rel = pat

/-- `sha256File` on the in-memory project tree. -/
def sha256File (hexF : List Nat → String) (fsF : String → Option (List Nat))
    (rel : String) : Except String String :=
  match fsF rel with
  | some c => Except.ok (hexF c)
  | none => Except.error ("open " ++ rel ++ ": no such file or directory")

/-- The conflict-detection head of the loop body (lines 100-116 of
`Upgrade`): with a loaded lock and a non-empty prior hash whose
on-disk hash differs, the file is a conflict unless `--force`, in
which case it is backed up first (outside `--dry-run`). -/
inductive ConflictAction where
  | conflict
  | backupThen
  | proceed
deriving DecidableEq, Repr

/-- Decide which of the three conflict-detection outcomes lines
100-116 take for one managed path. -/
def conflictDecision (hexF : List Nat → String) (lockLoaded force dryRun : Bool)
    (st : UpgradeState) (rel : String) : ConflictAction :=
  if lockLoaded then
    match mapLookup st.managedHashes rel with
    | some prev =>
      if prev ≠ "" then
        match sha256File hexF st.projectFS rel with
        | Except.ok cur =>
          if cur ≠ prev ∧ force = false then ConflictAction.conflict
          else if cur ≠ prev ∧ force = true ∧ dryRun = false then ConflictAction.backupThen
          else ConflictAction.proceed
        | Except.error _ => ConflictAction.proceed
      else ConflictAction.proceed
    | none => ConflictAction.proceed
  else ConflictAction.proceed

/-- Lines 118-142 of the loop body: check existence, then (outside
`--dry-run`) copy the template file over the project file, report the
path as updated when the destination existed and added otherwise, and
refresh its managed hash.  There is no comparison between template and
project content anywhere on this path. -/
def copyAndReport (hexF : List Nat → String) (tpl : String → Option (List Nat))
    (dryRun : Bool) (rel : String) (st : UpgradeState) : Except String UpgradeState :=
  let existed := (st.projectFS rel).isSome
  if dryRun then
    Except.ok (if existed then { st with updated := st.updated ++ [rel] }
               else { st with added := st.added ++ [rel] })
  else
    match tpl rel with
    | none => Except.error ("copy " ++ rel ++ ": no such file or directory")
    | some content =>
      let st := { st with projectFS := fun p => if p = rel then some content else st.projectFS p }
      let st := if existed then { st with updated := st.updated ++ [rel] }
                else { st with added := st.added ++ [rel] }
      Except.ok { st with managedHashes := mapInsert st.managedHashes rel (hexF content) }

/-- The managed-file loop of `project.Upgrade` (lines 89-143): iterate
the sorted managed paths; user-owned paths are skipped, conflicting
paths are reported (and the loop continues), everything else is
copied and reported updated/added. -/
def upgradeFiles (hexF : List Nat → String) (pathMatch : String → String → Bool)
    (tpl : String → Option (List Nat)) (userPatterns : List String)
    (lockLoaded force dryRun : Bool) :
    List String → UpgradeState → Except String UpgradeState
  | [], st => Except.ok st
  | rel :: rest, st =>
    if matchAny pathMatch rel userPatterns then
      upgradeFiles hexF pathMatch tpl userPatterns lockLoaded force dryRun rest
        { st with skipped := st.skipped ++ [rel] }
    else
      match conflictDecision hexF lockLoaded force dryRun st rel with
      | ConflictAction.conflict =>
        upgradeFiles hexF pathMatch tpl userPatterns lockLoaded force dryRun rest
          { st with conflicts := st.conflicts ++ [rel] }
      | act =>
        let st := if act = ConflictAction.backupThen then
            { st with backups := st.backups ++ [rel] } else st
        match copyAndReport hexF tpl dryRun rel st with
        | Except.error e => Except.error e
        | Except.ok st =>
          upgradeFiles hexF pathMatch tpl userPatterns lockLoaded force dryRun rest st

end Metaclaw.project

namespace Metaclaw.capsule

open Metaclaw

/-- A `path/filepath` path modelled at the element level: the rooted
flag (`filepath.IsAbs`) and the slash-separated elements.  A capsule id
is a hex string, so no modelled element ever contains a separator. -/
structure GoPath where
  rooted : Bool
  elems : List String
deriving DecidableEq, Repr

/-- A path element that `filepath.Clean` passes through unchanged. -/
def GoodElem (e : String) : Prop :=
  e ≠ "" ∧ e ≠ "." ∧ e ≠ ".."

instance : DecidablePred GoodElem := fun e => by
  unfold GoodElem
  infer_instance

/-- The element processing of `filepath.Clean` (Plan-9 `path.Clean` on
slash paths): drop empty and `.` elements; `..` pops the previous
element, stays in a relative path with nothing left to pop, and
disappears at the root of an absolute path.  `acc` holds the output
elements in reverse. -/
def cleanElems (rooted : Bool) : List String → List String → List String
  | acc, [] => acc.reverse
  | acc, e :: rest =>
    if e = "" ∨ e = "." then cleanElems rooted acc rest
    else if e = ".." then
      match acc with
      | [] => if rooted then cleanElems rooted [] rest else cleanElems rooted [".."] rest
      | top :: accTail =>
        if top = ".." then cleanElems rooted (".." :: top :: accTail) rest
        else cleanElems rooted accTail rest
    else cleanElems rooted (e :: acc) rest

/-- `filepath.Clean` on the element model (`elems = []` renders as `.`
for a relative path and as `/` for a rooted one). -/
def clean (p : GoPath) : GoPath :=
  ⟨p.rooted, cleanElems p.rooted [] p.elems⟩

/-- `filepath.Join(a, b...) = Clean(a + "/" + b...)`. -/
def joinPath (a : GoPath) (b : List String) : GoPath :=
  clean ⟨a.rooted, a.elems ++ b⟩

/-- The element computation of `filepath.Rel(base, targ)` for two
cleaned paths of the same rootedness: strip the common prefix, then
climb with `..` for every remaining base element. -/
def goRel : List String → List String → List String
  | [], t => t
  | b :: bs, [] => List.replicate (b :: bs).length ".."
  | b :: bs, t :: ts =>
    if b = t then goRel bs ts
    else List.replicate (bs.length + 1) ".." ++ (t :: ts)

/-- `strings.HasPrefix(e, "..")` on one element (note the Go check is
a plain string prefix, so an element like `..foo` also matches). -/
def startsDots (e : String) : Bool :=
  ("..").data.isPrefixOf e.data

/-- `strings.HasPrefix(path, "..")` on an element-modelled relative
path: the rendered string starts with its first element. -/
def headDots : List String → Bool
  | [] => false
  | e :: _ => startsDots e

/-- `resolveCapsulePath` from internal/capsule/capsule.go.  The base
path is used as the absolute capsule root (`filepath.Abs` of an
already-absolute path is `Clean`; the cwd-prepending case for a
relative base is outside the modelled scenarios).  In the element
model the empty string and `.` both have no elements, so the source's
two distinct error paths for them collapse into the `empty path`
error. -/
def resolveCapsulePath (basePath relPath : GoPath) : Except String GoPath :=
  if relPath.rooted = false ∧ relPath.elems = [] then
    Except.error "empty path"
  else if relPath.rooted then
    Except.error "absolute paths are not allowed"
  else
    let cl := clean relPath
    if cl.elems = [] ∨ headDots cl.elems then
      Except.error "path escapes capsule root"
    else
      let absBase := clean basePath
      let abs := joinPath absBase cl.elems
      let r := goRel absBase.elems abs.elems
      if headDots r then Except.error "path escapes capsule root"
      else Except.ok abs

/-- `digest` from internal/capsule/capsule.go:
`"sha256:" + hex.EncodeToString(sha256.Sum256(b))`. -/
def digest (hexF : List Nat → String) (b : List Nat) : String :=
  "sha256:" ++ hexF b

/-- `capsule.RuntimeContract`. -/
structure RuntimeContract where
  targets : List String
  semantics : List String
deriving DecidableEq, Repr

/-- `capsule.LockManifest` (the three lock file locations, as paths
relative to the capsule root). -/
structure LockManifest where
  dependency : GoPath
  image : GoPath
  source : GoPath
deriving DecidableEq, Repr

/-- `capsule.Manifest` (digests keyed by logical name). -/
structure Manifest where
  version : String
  capsuleID : String
  sourceClawfile : String
  digests : List (String × String)
  runtimeCompatibility : RuntimeContract
  locks : LockManifest
deriving DecidableEq, Repr

/-- `makeCapsuleID` from internal/capsule/capsule.go: stream the
sorted `(key, digest)` pairs through SHA-256 and keep the first 16 hex
characters. -/
def makeCapsuleID (hexF : List Nat → String) (digests : List (String × String)) : String :=
  let keys := sortStrings (mapKeys digests)
  let bytes := keys.flatMap
    (fun k => locks.strBytes k ++ locks.strBytes ((mapLookup digests k).getD ""))
  ⟨(hexF bytes).data.take 16⟩

/-- A written capsule: the artifact files on disk (keyed by absolute
path) and the parsed content of `manifest.json` (JSON round-tripping of
the manifest is modelled structurally). -/
structure CapsuleFS where
  files : List (GoPath × List Nat)
  manifest : Manifest
deriving DecidableEq, Repr

/-- `capsule.Write` from internal/capsule/capsule.go, taking the five
canonical JSON byte strings (`canonicalJSON` of ir, policy and the
three locks) as input: compute the five digests, derive the capsule id,
lay the artifacts out under `cap_<id>` and record the manifest.
Returns the capsule and its path (`manifest.json` and the portable
compat spec are not digest-checked by `Load` and are carried
structurally). -/
def Write (hexF : List Nat → String) (outputDir : GoPath) (sourceClawfile : String)
    (irJSON policyJSON depsJSON imageJSON sourceJSON : List Nat) : CapsuleFS × GoPath :=
  let digests := [("ir", digest hexF irJSON), ("policy", digest hexF policyJSON),
                  ("deps", digest hexF depsJSON), ("image", digest hexF imageJSON),
                  ("source", digest hexF sourceJSON)]
  let capsuleID := makeCapsuleID hexF digests
  let manifest : Manifest :=
    { version := "metaclaw.capsule/v1"
      capsuleID := capsuleID
      sourceClawfile := sourceClawfile
      digests := digests
      runtimeCompatibility :=
        { targets := ["podman", "apple_container", "docker"]
          semantics := ["detach", "env", "volume", "workdir"] }
      locks :=
        { dependency := ⟨false, ["locks", "deps.lock.json"]⟩
          image := ⟨false, ["locks", "image.lock.json"]⟩
          source := ⟨false, ["locks", "source.lock.json"]⟩ } }
  let capPath := joinPath outputDir ["cap_" ++ capsuleID]
  let files := [(joinPath capPath ["ir.json"], irJSON),
                (joinPath capPath ["policy.json"], policyJSON),
                (joinPath capPath ["locks", "deps.lock.json"], depsJSON),
                (joinPath capPath ["locks", "image.lock.json"], imageJSON),
                (joinPath capPath ["locks", "source.lock.json"], sourceJSON)]
  ({ files := files, manifest := manifest }, capPath)

/-- `os.ReadFile` on the capsule's files. -/
def readFile (files : List (GoPath × List Nat)) (p : GoPath) : Except String (List Nat) :=
  match files.find? (fun e => e.1 = p) with
  | some e => Except.ok e.2
  | none => Except.error "read capsule file: no such file or directory"

/-- The body of the `verifyManifest` loop for one logical key: fetch
the expected digest, resolve the artifact path against the capsule
root, read the file, recompute and compare. -/
def checkKey (hexF : List Nat → String) (files : List (GoPath × List Nat))
    (basePath : GoPath) (m : Manifest) (key : String) (relPath : GoPath) : Option String :=
  match mapLookup m.digests key with
  | none => some ("capsule manifest missing digest for " ++ key)
  | some expected =>
    if expected = "" then some ("capsule manifest missing digest for " ++ key)
    else
      match resolveCapsulePath basePath relPath with
      | Except.error e => some ("capsule manifest path for " ++ key ++ " is invalid: " ++ e)
      | Except.ok absPath =>
        match readFile files absPath with
        | Except.error e => some e
        | Except.ok b =>
          let got := digest hexF b
          if got ≠ expected then
            some ("capsule digest mismatch for " ++ key ++ ": expected " ++ expected ++
              ", got " ++ got)
          else none

/-- The `required` map of `verifyManifest` (a Go map literal; the
model fixes the iteration order — the claims mutate a single artifact,
so every other key passes and the outcome is order-independent). -/
def requiredList (m : Manifest) : List (String × GoPath) :=
  [("ir", ⟨false, ["ir.json"]⟩), ("policy", ⟨false, ["policy.json"]⟩),
   ("deps", m.locks.dependency), ("image", m.locks.image), ("source", m.locks.source)]

/-- The iteration of `verifyManifest` over the required keys: first
failing key wins. -/
def verifyKeys (hexF : List Nat → String) (files : List (GoPath × List Nat))
    (basePath : GoPath) (m : Manifest) : List (String × GoPath) → Option String
  | [] => none
  | (key, rel) :: rest =>
    match checkKey hexF files basePath m key rel with
    | some e => some e
    | none => verifyKeys hexF files basePath m rest

/-- `verifyManifest` from internal/capsule/capsule.go. -/
def verifyManifest (hexF : List Nat → String) (files : List (GoPath × List Nat))
    (basePath : GoPath) (m : Manifest) : Option String :=
  if m.capsuleID = "" then some "capsule manifest missing capsuleId"
  else verifyKeys hexF files basePath m (requiredList m)

/-- `capsule.Load`: parse `manifest.json` (carried structurally) and
verify every digest against the files at `path`. -/
def Load (hexF : List Nat → String) (c : CapsuleFS) (path : GoPath) : Except String Manifest :=
  match verifyManifest hexF c.files path c.manifest with
  | some e => Except.error e
  | none => Except.ok c.manifest

/-- Replace the bytes stored at one path (the byte mutation of the
claim). -/
def mutateFile (c : CapsuleFS) (p : GoPath) (b : List Nat) : CapsuleFS :=
  { c with files := c.files.map (fun e => if e.1 = p then (p, b) else e) }

end Metaclaw.capsule

namespace Metaclaw

/-- A normalized clawfile whose LLM provider is `gemini_openai` and
whose habitat env is empty (the shape of the repository's own
`TestCompileIncludesLLMEnvAllowlist` fixture). -/
def geminiClawfile : v1.Clawfile :=
  { apiVersion := "metaclaw/v1"
    kind := "Agent"
    agent :=
      { name := "a"
        species := "nano"
        lifecycle := "ephemeral"
        habitat :=
          { network := { mode := "none" }
            mounts := []
            env := []
            workdir := ""
            user := "" }
        llm :=
          { provider := "gemini_openai"
            model := "gemini-2.5-pro"
            baseURL := "https://generativelanguage.googleapis.com/v1beta/openai/"
            apiKeyEnv := "GEMINI_API_KEY" }
        skills := []
        runtime :=
          { target := ""
            image := "alpine:3.20@sha256:a4f4213abb84c497377b8544c81b3564f313746700372ec4fe84653e4fb03805"
            resources := { cpu := "0.25", memory := "256m" } } } }

/-- The anthropic LLM spec used by the repository's own
`TestResolveAnthropic`. -/
def anthropicSpec : v1.LLMSpec :=
  { provider := "anthropic"
    model := "claude-3-5-sonnet-latest"
    baseURL := "https://api.anthropic.com/v1"
    apiKeyEnv := "ANTHROPIC_API_KEY" }

/-- The five artifact files of a written capsule, keyed by their
absolute paths under the capsule root `capE`, holding the given byte
strings. -/
def capsuleFiles (capE : List String) (c1 c2 c3 c4 c5 : List Nat) :
    List (capsule.GoPath × List Nat) :=
  [(⟨true, capE ++ ["ir.json"]⟩, c1),
   (⟨true, capE ++ ["policy.json"]⟩, c2),
   (⟨true, capE ++ ["locks", "deps.lock.json"]⟩, c3),
   (⟨true, capE ++ ["locks", "image.lock.json"]⟩, c4),
   (⟨true, capE ++ ["locks", "source.lock.json"]⟩, c5)]

/-- The manifest a written capsule carries, with the five digests
computed from the written bytes. -/
def capsuleManifest (hexF : List Nat → String) (cid src : String)
    (b1 b2 b3 b4 b5 : List Nat) : capsule.Manifest :=
  { version := "metaclaw.capsule/v1"
    capsuleID := cid
    sourceClawfile := src
    digests := [("ir", capsule.digest hexF b1), ("policy", capsule.digest hexF b2),
                ("deps", capsule.digest hexF b3), ("image", capsule.digest hexF b4),
                ("source", capsule.digest hexF b5)]
    runtimeCompatibility :=
      { targets := ["podman", "apple_container", "docker"]
        semantics := ["detach", "env", "volume", "workdir"] }
    locks :=
      { dependency := ⟨false, ["locks", "deps.lock.json"]⟩
        image := ⟨false, ["locks", "image.lock.json"]⟩
        source := ⟨false, ["locks", "source.lock.json"]⟩ } }

/-- `filepath.Clean` passes a list of clean elements through
unchanged. -/
theorem cleanElems_of_good (rooted : Bool) (elems : List String) :
    ∀ acc : List String, (∀ e ∈ elems, capsule.GoodElem e) →
      capsule.cleanElems rooted acc elems = acc.reverse ++ elems := by
  induction elems with
  | nil => intro acc _; simp [capsule.cleanElems]
  | cons e rest ih =>
    intro acc h
    obtain ⟨h1, h2, h3⟩ := h e (by simp)
    unfold capsule.cleanElems
    rw [if_neg (by simp [h1, h2]), if_neg h3,
      ih (e :: acc) (fun x hx => h x (by simp [hx]))]
    simp

/-- `filepath.Clean` fixes a path whose elements are all clean. -/
theorem clean_of_good (p : capsule.GoPath) (h : ∀ e ∈ p.elems, capsule.GoodElem e) :
    capsule.clean p = p := by
  unfold capsule.clean
  rw [cleanElems_of_good p.rooted p.elems [] h]
  simp

/-- `filepath.Join` of clean pieces is concatenation. -/
theorem joinPath_of_good (a : capsule.GoPath) (b : List String)
    (ha : ∀ e ∈ a.elems, capsule.GoodElem e) (hb : ∀ e ∈ b, capsule.GoodElem e) :
    capsule.joinPath a b = ⟨a.rooted, a.elems ++ b⟩ := by
  unfold capsule.joinPath
  exact clean_of_good ⟨a.rooted, a.elems ++ b⟩ (by
    intro e he
    simp only [List.mem_append] at he
    rcases he with he | he
    · exact ha e he
    · exact hb e he)

/-- `filepath.Rel` of a path against an extension of itself is the
extension. -/
theorem goRel_append (base : List String) : ∀ rest : List String,
    capsule.goRel base (base ++ rest) = rest := by
  induction base with
  | nil => intro rest; rfl
  | cons b bs ih => intro rest; simp [capsule.goRel, ih]

/-- A `cap_<id>` directory name is a clean path element. -/
theorem goodElem_cap (s : String) : capsule.GoodElem ("cap_" ++ s) := by
  refine ⟨?_, ?_, ?_⟩ <;>
    · intro h
      rw [String.ext_iff] at h
      simp at h

/-- A `sha256:`-prefixed digest string is never empty. -/
theorem sha_ne_empty (s : String) : ("sha256:" ++ s) ≠ "" := by
  intro h
  rw [String.ext_iff] at h
  simp at h

/-- A computed capsule digest is never the empty string. -/
theorem digest_ne_empty (hexF : List Nat → String) (b : List Nat) :
    capsule.digest hexF b ≠ "" :=
  sha_ne_empty _

/-- Distinct hex digests give distinct `sha256:`-prefixed digest
strings. -/
theorem sha_ne_of_ne {a b : String} (h : a ≠ b) :
    ("sha256:" ++ a) ≠ ("sha256:" ++ b) := by
  intro hc
  rw [String.ext_iff] at hc
  simp at hc
  exact h (String.ext hc)

/-- The 16-character truncation of a non-empty string is non-empty. -/
theorem take16_ne_empty (s : String) (h : s ≠ "") :
    (⟨s.data.take 16⟩ : String) ≠ "" := by
  intro hc
  rw [String.ext_iff] at hc
  simp at hc
  exact h (by rw [String.ext_iff]; simp [hc])

/-- `resolveCapsulePath` against a clean absolute base accepts a
non-empty clean relative path (whose head does not begin with `..`)
and returns the joined absolute path. -/
theorem resolve_good (basePath : capsule.GoPath) (rel : List String)
    (hroot : basePath.rooted = true)
    (hgood : ∀ e ∈ basePath.elems, capsule.GoodElem e)
    (hne : rel ≠ []) (hrelgood : ∀ e ∈ rel, capsule.GoodElem e)
    (hdots : capsule.headDots rel = false) :
    capsule.resolveCapsulePath basePath ⟨false, rel⟩ =
      Except.ok ⟨true, basePath.elems ++ rel⟩ := by
  unfold capsule.resolveCapsulePath
  rw [if_neg (by simp [hne])]
  simp only [if_neg (by simp : ¬(false = true))]
  have hclrel : capsule.clean ⟨false, rel⟩ = ⟨false, rel⟩ :=
    clean_of_good ⟨false, rel⟩ hrelgood
  rw [hclrel]
  rw [if_neg (by simp [hne, hdots])]
  have hclbase : capsule.clean basePath = basePath := clean_of_good basePath hgood
  rw [hclbase]
  rw [joinPath_of_good basePath rel hgood hrelgood]
  simp only
  rw [goRel_append basePath.elems rel]
  rw [if_neg (by simp [hdots])]
  rw [hroot]

/-- Two artifact paths under the same capsule root agree exactly when
their relative parts agree. -/
theorem capsule_path_eq_iff (ce a b : List String) :
    (⟨true, ce ++ a⟩ : capsule.GoPath) = ⟨true, ce ++ b⟩ ↔ a = b := by
  simp

/-- Reading any of the five artifact paths out of the five-entry file
list returns the stored bytes. -/
theorem capsule_read_each (capE : List String) (c1 c2 c3 c4 c5 : List Nat) :
    capsule.readFile (capsuleFiles capE c1 c2 c3 c4 c5) ⟨true, capE ++ ["ir.json"]⟩ =
        Except.ok c1 ∧
    capsule.readFile (capsuleFiles capE c1 c2 c3 c4 c5) ⟨true, capE ++ ["policy.json"]⟩ =
        Except.ok c2 ∧
    capsule.readFile (capsuleFiles capE c1 c2 c3 c4 c5)
        ⟨true, capE ++ ["locks", "deps.lock.json"]⟩ = Except.ok c3 ∧
    capsule.readFile (capsuleFiles capE c1 c2 c3 c4 c5)
        ⟨true, capE ++ ["locks", "image.lock.json"]⟩ = Except.ok c4 ∧
    capsule.readFile (capsuleFiles capE c1 c2 c3 c4 c5)
        ⟨true, capE ++ ["locks", "source.lock.json"]⟩ = Except.ok c5 := by
  refine ⟨?_, ?_, ?_, ?_, ?_⟩ <;>
    simp [capsule.readFile, capsuleFiles, List.find?, capsule.GoPath.mk.injEq]

/-- Verification of an intact five-artifact capsule succeeds. -/
theorem capsule_verify_intact (hexF : List Nat → String) (capE : List String)
    (hgood : ∀ e ∈ capE, capsule.GoodElem e) (cid src : String) (hcid : cid ≠ "")
    (b1 b2 b3 b4 b5 : List Nat) :
    capsule.verifyManifest hexF (capsuleFiles capE b1 b2 b3 b4 b5) ⟨true, capE⟩
      (capsuleManifest hexF cid src b1 b2 b3 b4 b5) = none := by
  have hr1 := resolve_good ⟨true, capE⟩ ["ir.json"] rfl hgood (by simp) (by decide) (by decide)
  have hr2 := resolve_good ⟨true, capE⟩ ["policy.json"] rfl hgood (by simp) (by decide) (by decide)
  have hr3 := resolve_good ⟨true, capE⟩ ["locks", "deps.lock.json"] rfl hgood (by simp)
    (by decide) (by decide)
  have hr4 := resolve_good ⟨true, capE⟩ ["locks", "image.lock.json"] rfl hgood (by simp)
    (by decide) (by decide)
  have hr5 := resolve_good ⟨true, capE⟩ ["locks", "source.lock.json"] rfl hgood (by simp)
    (by decide) (by decide)
  obtain ⟨hd1, hd2, hd3, hd4, hd5⟩ := capsule_read_each capE b1 b2 b3 b4 b5
  unfold capsule.verifyManifest
  rw [if_neg
    (show ¬((capsuleManifest hexF cid src b1 b2 b3 b4 b5).capsuleID = "") from hcid)]
  simp only [capsule.requiredList, capsuleManifest, capsule.verifyKeys, capsule.checkKey,
    mapLookup, List.find?]
  simp [hr1, hr2, hr3, hr4, hr5, hd1, hd2, hd3, hd4, hd5, digest_ne_empty]

/-- Verification of a capsule in which exactly one artifact's bytes
were replaced (by bytes with a different hash) fails with a digest
mismatch naming that artifact's logical key. -/
theorem capsule_verify_mutated (hexF : List Nat → String) (capE : List String)
    (hgood : ∀ e ∈ capE, capsule.GoodElem e) (cid src : String) (hcid : cid ≠ "")
    (b1 b2 b3 b4 b5 : List Nat) :
    (∀ n, hexF n ≠ hexF b1 →
      capsule.verifyManifest hexF (capsuleFiles capE n b2 b3 b4 b5) ⟨true, capE⟩
        (capsuleManifest hexF cid src b1 b2 b3 b4 b5) =
        some ("capsule digest mismatch for ir: expected " ++ capsule.digest hexF b1 ++
          ", got " ++ capsule.digest hexF n)) ∧
    (∀ n, hexF n ≠ hexF b2 →
      capsule.verifyManifest hexF (capsuleFiles capE b1 n b3 b4 b5) ⟨true, capE⟩
        (capsuleManifest hexF cid src b1 b2 b3 b4 b5) =
        some ("capsule digest mismatch for policy: expected " ++ capsule.digest hexF b2 ++
          ", got " ++ capsule.digest hexF n)) ∧
    (∀ n, hexF n ≠ hexF b3 →
      capsule.verifyManifest hexF (capsuleFiles capE b1 b2 n b4 b5) ⟨true, capE⟩
        (capsuleManifest hexF cid src b1 b2 b3 b4 b5) =
        some ("capsule digest mismatch for deps: expected " ++ capsule.digest hexF b3 ++
          ", got " ++ capsule.digest hexF n)) ∧
    (∀ n, hexF n ≠ hexF b4 →
      capsule.verifyManifest hexF (capsuleFiles capE b1 b2 b3 n b5) ⟨true, capE⟩
        (capsuleManifest hexF cid src b1 b2 b3 b4 b5) =
        some ("capsule digest mismatch for image: expected " ++ capsule.digest hexF b4 ++
          ", got " ++ capsule.digest hexF n)) ∧
    (∀ n, hexF n ≠ hexF b5 →
      capsule.verifyManifest hexF (capsuleFiles capE b1 b2 b3 b4 n) ⟨true, capE⟩
        (capsuleManifest hexF cid src b1 b2 b3 b4 b5) =
        some ("capsule digest mismatch for source: expected " ++ capsule.digest hexF b5 ++
          ", got " ++ capsule.digest hexF n)) := by
  have hr1 := resolve_good ⟨true, capE⟩ ["ir.json"] rfl hgood (by simp) (by decide) (by decide)
  have hr2 := resolve_good ⟨true, capE⟩ ["policy.json"] rfl hgood (by simp) (by decide) (by decide)
  have hr3 := resolve_good ⟨true, capE⟩ ["locks", "deps.lock.json"] rfl hgood (by simp)
    (by decide) (by decide)
  have hr4 := resolve_good ⟨true, capE⟩ ["locks", "image.lock.json"] rfl hgood (by simp)
    (by decide) (by decide)
  have hr5 := resolve_good ⟨true, capE⟩ ["locks", "source.lock.json"] rfl hgood (by simp)
    (by decide) (by decide)
  refine ⟨?_, ?_, ?_, ?_, ?_⟩
  · intro n hne
    obtain ⟨hd1, hd2, hd3, hd4, hd5⟩ := capsule_read_each capE n b2 b3 b4 b5
    have hnd := sha_ne_of_ne hne
    unfold capsule.verifyManifest
    rw [if_neg
      (show ¬((capsuleManifest hexF cid src b1 b2 b3 b4 b5).capsuleID = "") from hcid)]
    simp only [capsule.requiredList, capsuleManifest, capsule.verifyKeys, capsule.checkKey,
      mapLookup, List.find?]
    simp [capsule.digest, hr1, hr2, hr3, hr4, hr5, hd1, hd2, hd3, hd4, hd5,
      digest_ne_empty, sha_ne_empty, hnd]
  · intro n hne
    obtain ⟨hd1, hd2, hd3, hd4, hd5⟩ := capsule_read_each capE b1 n b3 b4 b5
    have hnd := sha_ne_of_ne hne
    unfold capsule.verifyManifest
    rw [if_neg
      (show ¬((capsuleManifest hexF cid src b1 b2 b3 b4 b5).capsuleID = "") from hcid)]
    simp only [capsule.requiredList, capsuleManifest, capsule.verifyKeys, capsule.checkKey,
      mapLookup, List.find?]
    simp [capsule.digest, hr1, hr2, hr3, hr4, hr5, hd1, hd2, hd3, hd4, hd5,
      digest_ne_empty, sha_ne_empty, hnd]
  · intro n hne
    obtain ⟨hd1, hd2, hd3, hd4, hd5⟩ := capsule_read_each capE b1 b2 n b4 b5
    have hnd := sha_ne_of_ne hne
    unfold capsule.verifyManifest
    rw [if_neg
      (show ¬((capsuleManifest hexF cid src b1 b2 b3 b4 b5).capsuleID = "") from hcid)]
    simp only [capsule.requiredList, capsuleManifest, capsule.verifyKeys, capsule.checkKey,
      mapLookup, List.find?]
    simp [capsule.digest, hr1, hr2, hr3, hr4, hr5, hd1, hd2, hd3, hd4, hd5,
      digest_ne_empty, sha_ne_empty, hnd]
  · intro n hne
    obtain ⟨hd1, hd2, hd3, hd4, hd5⟩ := capsule_read_each capE b1 b2 b3 n b5
    have hnd := sha_ne_of_ne hne
    unfold capsule.verifyManifest
    rw [if_neg
      (show ¬((capsuleManifest hexF cid src b1 b2 b3 b4 b5).capsuleID = "") from hcid)]
    simp only [capsule.requiredList, capsuleManifest, capsule.verifyKeys, capsule.checkKey,
      mapLookup, List.find?]
    simp [capsule.digest, hr1, hr2, hr3, hr4, hr5, hd1, hd2, hd3, hd4, hd5,
      digest_ne_empty, sha_ne_empty, hnd]
  · intro n hne
    obtain ⟨hd1, hd2, hd3, hd4, hd5⟩ := capsule_read_each capE b1 b2 b3 b4 n
    have hnd := sha_ne_of_ne hne
    unfold capsule.verifyManifest
    rw [if_neg
      (show ¬((capsuleManifest hexF cid src b1 b2 b3 b4 b5).capsuleID = "") from hcid)]
    simp only [capsule.requiredList, capsuleManifest, capsule.verifyKeys, capsule.checkKey,
      mapLookup, List.find?]
    simp [capsule.digest, hr1, hr2, hr3, hr4, hr5, hd1, hd2, hd3, hd4, hd5,
      digest_ne_empty, sha_ne_empty, hnd]

/-- C3: for every capsule written by `capsule.Write` (under a clean
absolute output directory, with the abstract hex encoder standing for
SHA-256), loading the unmodified capsule succeeds; and for every
logical key in {ir, policy, deps, image, source}, replacing the bytes
of the corresponding artifact file by bytes with a different hash makes
`capsule.Load` fail with a `capsule digest mismatch` error naming that
key.  The hash-inequality hypothesis is byte inequality transported
through SHA-256 collision-freeness. -/
theorem capsule_write_load_integrity (hexF : List Nat → String) (outputDir : capsule.GoPath)
    (src : String) (irJ polJ depJ imgJ srcJ : List Nat)
    (hroot : outputDir.rooted = true)
    (hgood : ∀ e ∈ outputDir.elems, capsule.GoodElem e)
    (hhex : ∀ b, hexF b ≠ "") :
    capsule.Load hexF (capsule.Write hexF outputDir src irJ polJ depJ imgJ srcJ).1
        (capsule.Write hexF outputDir src irJ polJ depJ imgJ srcJ).2 =
      Except.ok (capsule.Write hexF outputDir src irJ polJ depJ imgJ srcJ).1.manifest ∧
    ∀ key rel orig,
      (key, rel, orig) ∈ ([("ir", ["ir.json"], irJ), ("policy", ["policy.json"], polJ),
        ("deps", ["locks", "deps.lock.json"], depJ),
        ("image", ["locks", "image.lock.json"], imgJ),
        ("source", ["locks", "source.lock.json"], srcJ)] :
          List (String × List String × List Nat)) →
      ∀ newBytes : List Nat, hexF newBytes ≠ hexF orig →
        capsule.Load hexF
          (capsule.mutateFile (capsule.Write hexF outputDir src irJ polJ depJ imgJ srcJ).1
            (capsule.joinPath (capsule.Write hexF outputDir src irJ polJ depJ imgJ srcJ).2 rel)
            newBytes)
          (capsule.Write hexF outputDir src irJ polJ depJ imgJ srcJ).2 =
          Except.error ("capsule digest mismatch for " ++ key ++ ": expected " ++
            capsule.digest hexF orig ++ ", got " ++ capsule.digest hexF newBytes) := by
  obtain ⟨c, hc⟩ : ∃ c, capsule.makeCapsuleID hexF
      [("ir", capsule.digest hexF irJ), ("policy", capsule.digest hexF polJ),
       ("deps", capsule.digest hexF depJ), ("image", capsule.digest hexF imgJ),
       ("source", capsule.digest hexF srcJ)] = c := ⟨_, rfl⟩
  obtain ⟨capE, hcapE⟩ : ∃ l, outputDir.elems ++ ["cap_" ++ c] = l := ⟨_, rfl⟩
  have hcne : c ≠ "" := by
    rw [← hc]
    simp only [capsule.makeCapsuleID]
    exact take16_ne_empty _ (hhex _)
  have hcapgood : ∀ e ∈ ["cap_" ++ c], capsule.GoodElem e := by
    intro e he
    rw [List.mem_singleton] at he
    subst he
    exact goodElem_cap c
  have hEgood : ∀ e ∈ capE, capsule.GoodElem e := by
    intro e he
    rw [← hcapE] at he
    rcases List.mem_append.mp he with he | he
    · exact hgood e he
    · exact hcapgood e he
  have hW2 : (capsule.Write hexF outputDir src irJ polJ depJ imgJ srcJ).2 =
      ⟨true, capE⟩ := by
    simp only [capsule.Write]
    rw [hc, joinPath_of_good outputDir ["cap_" ++ c] hgood hcapgood, hroot, hcapE]
  have hfiles : (capsule.Write hexF outputDir src irJ polJ depJ imgJ srcJ).1.files =
      capsuleFiles capE irJ polJ depJ imgJ srcJ := by
    simp only [capsule.Write]
    rw [hc, joinPath_of_good outputDir ["cap_" ++ c] hgood hcapgood, hroot, hcapE]
    rw [joinPath_of_good ⟨true, capE⟩ ["ir.json"] hEgood (by decide),
      joinPath_of_good ⟨true, capE⟩ ["policy.json"] hEgood (by decide),
      joinPath_of_good ⟨true, capE⟩ ["locks", "deps.lock.json"] hEgood (by decide),
      joinPath_of_good ⟨true, capE⟩ ["locks", "image.lock.json"] hEgood (by decide),
      joinPath_of_good ⟨true, capE⟩ ["locks", "source.lock.json"] hEgood (by decide)]
    rfl
  have hman : (capsule.Write hexF outputDir src irJ polJ depJ imgJ srcJ).1.manifest =
      capsuleManifest hexF c src irJ polJ depJ imgJ srcJ := by
    simp only [capsule.Write]
    rw [hc]
    rfl
  have hjm : ∀ rel : List String, rel ≠ [] → (∀ e ∈ rel, capsule.GoodElem e) →
      capsule.joinPath (capsule.Write hexF outputDir src irJ polJ depJ imgJ srcJ).2 rel =
        ⟨true, capE ++ rel⟩ := by
    intro rel _ hrelgood
    rw [hW2]
    exact joinPath_of_good ⟨true, capE⟩ rel hEgood hrelgood
  constructor
  · unfold capsule.Load
    rw [hfiles, hW2, hman,
      capsule_verify_intact hexF capE hEgood c src hcne irJ polJ depJ imgJ srcJ]
  · intro key rel orig hmem n hne
    have hmut := capsule_verify_mutated hexF capE hEgood c src hcne irJ polJ depJ imgJ srcJ
    simp only [List.mem_cons, List.not_mem_nil, or_false, Prod.mk.injEq] at hmem
    rcases hmem with ⟨rfl, rfl, rfl⟩ | ⟨rfl, rfl, rfl⟩ | ⟨rfl, rfl, rfl⟩ |
      ⟨rfl, rfl, rfl⟩ | ⟨rfl, rfl, rfl⟩
    · unfold capsule.Load capsule.mutateFile
      rw [hjm ["ir.json"] (by decide) (by decide), hfiles, hW2, hman]
      rw [show (capsuleFiles capE orig polJ depJ imgJ srcJ).map
          (fun e => if e.1 = (⟨true, capE ++ ["ir.json"]⟩ : capsule.GoPath) then
            ((⟨true, capE ++ ["ir.json"]⟩ : capsule.GoPath), n) else e) =
          capsuleFiles capE n polJ depJ imgJ srcJ by
        simp [capsuleFiles, capsule.GoPath.mk.injEq]]
      rw [hmut.1 n hne]
      simp [capsule.digest]
    · unfold capsule.Load capsule.mutateFile
      rw [hjm ["policy.json"] (by decide) (by decide), hfiles, hW2, hman]
      rw [show (capsuleFiles capE irJ orig depJ imgJ srcJ).map
          (fun e => if e.1 = (⟨true, capE ++ ["policy.json"]⟩ : capsule.GoPath) then
            ((⟨true, capE ++ ["policy.json"]⟩ : capsule.GoPath), n) else e) =
          capsuleFiles capE irJ n depJ imgJ srcJ by
        simp [capsuleFiles, capsule.GoPath.mk.injEq]]
      rw [hmut.2.1 n hne]
      simp [capsule.digest]
    · unfold capsule.Load capsule.mutateFile
      rw [hjm ["locks", "deps.lock.json"] (by decide) (by decide), hfiles, hW2, hman]
      rw [show (capsuleFiles capE irJ polJ orig imgJ srcJ).map
          (fun e => if e.1 = (⟨true, capE ++ ["locks", "deps.lock.json"]⟩ : capsule.GoPath) then
            ((⟨true, capE ++ ["locks", "deps.lock.json"]⟩ : capsule.GoPath), n) else e) =
          capsuleFiles capE irJ polJ n imgJ srcJ by
        simp [capsuleFiles, capsule.GoPath.mk.injEq]]
      rw [hmut.2.2.1 n hne]
      simp [capsule.digest]
    · unfold capsule.Load capsule.mutateFile
      rw [hjm ["locks", "image.lock.json"] (by decide) (by decide), hfiles, hW2, hman]
      rw [show (capsuleFiles capE irJ polJ depJ orig srcJ).map
          (fun e => if e.1 = (⟨true, capE ++ ["locks", "image.lock.json"]⟩ : capsule.GoPath) then
            ((⟨true, capE ++ ["locks", "image.lock.json"]⟩ : capsule.GoPath), n) else e) =
          capsuleFiles capE irJ polJ depJ n srcJ by
        simp [capsuleFiles, capsule.GoPath.mk.injEq]]
      rw [hmut.2.2.2.1 n hne]
      simp [capsule.digest]
    · unfold capsule.Load capsule.mutateFile
      rw [hjm ["locks", "source.lock.json"] (by decide) (by decide), hfiles, hW2, hman]
      rw [show (capsuleFiles capE irJ polJ depJ imgJ orig).map
          (fun e => if e.1 = (⟨true, capE ++ ["locks", "source.lock.json"]⟩ : capsule.GoPath) then
            ((⟨true, capE ++ ["locks", "source.lock.json"]⟩ : capsule.GoPath), n) else e) =
          capsuleFiles capE irJ polJ depJ imgJ n by
        simp [capsuleFiles, capsule.GoPath.mk.injEq]]
      rw [hmut.2.2.2.2 n hne]
      simp [capsule.digest]

/-- Witness for C3: with a concrete encoder and a concrete output
directory, loading a freshly written capsule succeeds (the theorem's
first conjunct applied at a concrete input). -/
theorem capsule_write_load_integrity_witness :
    capsule.Load (fun _ => "x")
        (capsule.Write (fun _ => "x") ⟨true, ["out"]⟩ "agent.claw" [0] [1] [2] [3] [4]).1
        (capsule.Write (fun _ => "x") ⟨true, ["out"]⟩ "agent.claw" [0] [1] [2] [3] [4]).2 =
      Except.ok
        (capsule.Write (fun _ => "x") ⟨true, ["out"]⟩ "agent.claw" [0] [1] [2] [3] [4]).1.manifest :=
  (capsule_write_load_integrity (fun _ => "x") ⟨true, ["out"]⟩ "agent.claw" [0] [1] [2] [3] [4]
    rfl (by decide) (by intro b; simp)).1

/-- C1: the docker adapter's `policyFlags` puts an env entry on the
argv inline as `KEY=VALUE`.  Evaluating the embedded source at the env
map `{OPENAI_API_KEY: super-secret-value}` shows the produced argv
contains the string `OPENAI_API_KEY=super-secret-value`, contradicting
the claim that no adapter's argv contains a `KEY=VALUE` string for any
env entry (the podman adapter emits `-e KEY` only; docker does not). -/
theorem docker_policyFlags_inlines_env_value :
    "OPENAI_API_KEY=super-secret-value" ∈
      docker.policyFlags
        { version := "metaclaw.policy/v1"
          network := { mode := "outbound", allowed := true }
          mounts := []
          envAllowlist := []
          workdir := ""
          user := "" }
        [("OPENAI_API_KEY", "super-secret-value")] "/work" "" := by
  decide

/-- C2: `policy.Compile` builds the env allowlist from the habitat env
keys alone.  For a clawfile with provider `gemini_openai` and an empty
habitat env map, the compiled allowlist is empty — it does not contain
`GEMINI_API_KEY` even though the LLM-derived key set
(`llm.AllowedEnvKeys`) does, so the allowlist is not the claimed union
of habitat keys with LLM-derived keys. -/
theorem compile_allowlist_misses_llm_keys :
    ∃ p, policy.Compile geminiClawfile = Except.ok p ∧
      p.envAllowlist = [] ∧
      "GEMINI_API_KEY" ∉ p.envAllowlist ∧
      "GEMINI_API_KEY" ∈ llm.AllowedEnvKeys geminiClawfile.agent.llm := by
  refine ⟨{ version := "metaclaw.policy/v1"
            network := { mode := "none", allowed := false }
            mounts := []
            envAllowlist := []
            workdir := ""
            user := "" }, ?_, rfl, by decide, by decide⟩
  rfl

/-- C8: evaluating `llm.Resolve` on an anthropic spec with a resolved
inline key shows that `ANTHROPIC_API_KEY` is bound only because it
happens to be the spec's `apiKeyEnv`, and `ANTHROPIC_BASE_URL` is never
bound even though the spec's baseURL is set — the provider switch in
the source has no `anthropic` case, contradicting the claim (and the
repository's own `TestResolveAnthropic`). -/
theorem resolve_anthropic_misses_base_url :
    (llm.Resolve anthropicSpec { apiKey := "abc-123", apiKeyEnv := "" } (fun _ => "")).map
      (fun r => (r.enabled, mapLookup r.env "ANTHROPIC_API_KEY",
                 mapLookup r.env "ANTHROPIC_BASE_URL")) =
      Except.ok (true, some "abc-123", none) := by
  rfl

/-- C10: with a non-empty explicit runtime override, `Resolver.Resolve`
either returns the override target itself (when it parses and its
availability probe passes) or fails; it never falls back to the
clawfile target or to the host-default order, and an unknown or
unavailable override is a hard error. -/
theorem resolve_override_is_hard_error (avail : String → Bool)
    (goos ov ct : String) (hov : ov ≠ "") :
    ((ov ∉ runtime.targets ∨ avail ov = false) →
      ∃ e, runtime.Resolve avail goos ov ct = Except.error e) ∧
    (∀ t, runtime.Resolve avail goos ov ct = Except.ok t → t = ov ∧ avail ov = true) := by
  constructor
  · intro hbad
    by_cases hmem : ov ∈ runtime.targets
    · have hbadav : avail ov = false := by
        rcases hbad with hbad | hbad
        · exact absurd hmem hbad
        · exact hbad
      simp [runtime.Resolve, runtime.ParseTarget, hov, hmem, hbadav]
    · simp [runtime.Resolve, runtime.ParseTarget, hov, hmem]
  · intro t hok
    by_cases hmem : ov ∈ runtime.targets
    · by_cases hav : avail ov = true
      · simp [runtime.Resolve, runtime.ParseTarget, hov, hmem, hav] at hok
        exact ⟨hok.symm, hav⟩
      · simp [runtime.Resolve, runtime.ParseTarget, hov, hmem, hav] at hok
    · simp [runtime.Resolve, runtime.ParseTarget, hov, hmem] at hok

/-- Witness for C10: with every availability probe failing, resolving
the explicit override `docker` is an error (the theorem applied at a
concrete input). -/
theorem resolve_override_is_hard_error_witness :
    ∃ e, runtime.Resolve (fun _ => false) "linux" "docker" "podman" = Except.error e :=
  (resolve_override_is_hard_error (fun _ => false) "linux" "docker" "podman"
    (by decide)).1 (Or.inr rfl)

/-- When the mapped container status is non-terminal, reconciliation of
a running record with a container id returns the record unchanged, with
no event and no store write. -/
theorem refresh_of_nonterminal (rec : manager.RunRecord) (cs : String) (exit : Option Int)
    (now : String) (hrun : rec.status = "running") (hcid : rec.containerID ≠ "")
    (h : (manager.mapContainerStatus cs exit).2 = false) :
    manager.refreshRunStatus rec (Except.ok (cs, exit)) now =
      { record := rec, events := [], completion := none, error := none } := by
  simp [manager.refreshRunStatus, hrun, hcid, h]

/-- When the mapped container status is terminal, reconciliation writes
the mapped run status, exit code and ending timestamp, and appends one
`runtime.exit` event. -/
theorem refresh_of_terminal (rec : manager.RunRecord) (cs : String) (exit : Option Int)
    (now : String) (hrun : rec.status = "running") (hcid : rec.containerID ≠ "")
    (h : (manager.mapContainerStatus cs exit).2 = true) :
    manager.refreshRunStatus rec (Except.ok (cs, exit)) now =
      (let runStatus := (manager.mapContainerStatus cs exit).1
       let lastError :=
         if runStatus = "failed" then
           match exit with
           | some c => "detached container exited with code " ++ toString c
           | none => "detached container exited"
         else ""
       { record := { rec with
                       status := runStatus
                       exitCode := exit
                       lastError := lastError
                       endedAt := now }
         events := [{ phase := "runtime.exit", runtime := rec.runtimeTarget
                      containerID := rec.containerID
                      message := if runStatus = "failed" then "failed" else "completed"
                      error := lastError }]
         completion := some { runID := rec.runID
                              status := runStatus
                              containerID := rec.containerID
                              exitCode := exit
                              lastError := lastError }
         error := none }) := by
  simp only [manager.refreshRunStatus, hrun, hcid, h]
  simp
  by_cases hf : (manager.mapContainerStatus cs exit).1 = "failed" <;> simp [hf] <;>
    cases exit <;> rfl

/-- C6: for a run record with status `running` and a non-empty
container id, reconciliation maps a backend status in
{running, created, restarting, paused} to a non-terminal outcome that
leaves the record unchanged (no event, no store write), and a status in
{exited, dead, stopped} to a terminal outcome whose run status is
`succeeded` exactly when the exit code is present and 0 (`failed`
otherwise), storing the exit code, setting the ending timestamp, and
appending exactly one `runtime.exit` event. -/
theorem refresh_maps_backend_status (rec : manager.RunRecord) (cs : String)
    (exit : Option Int) (now : String)
    (hrun : rec.status = "running") (hcid : rec.containerID ≠ "") :
    (cs ∈ ["running", "created", "restarting", "paused"] →
      manager.refreshRunStatus rec (Except.ok (cs, exit)) now =
        { record := rec, events := [], completion := none, error := none }) ∧
    (cs ∈ ["exited", "dead", "stopped"] →
      (let out := manager.refreshRunStatus rec (Except.ok (cs, exit)) now
       (out.record.status = "succeeded" ↔ exit = some 0) ∧
       (out.record.status = "succeeded" ∨ out.record.status = "failed") ∧
       out.record.exitCode = exit ∧
       out.record.endedAt = now ∧
       (out.events.filter (fun e => e.phase = "runtime.exit")).length = 1 ∧
       (out.completion.map manager.StoreCompletion.exitCode) = some exit)) := by
  constructor
  · intro hmem
    have hnt : (manager.mapContainerStatus cs exit).2 = false := by
      simp only [List.mem_cons, List.mem_singleton] at hmem
      rcases hmem with rfl | rfl | rfl | rfl | hmem
      · rfl
      · rfl
      · rfl
      · rfl
      · simp at hmem
    exact refresh_of_nonterminal rec cs exit now hrun hcid hnt
  · intro hmem
    have hcases : manager.mapContainerStatus cs exit =
        (if exit = some 0 then ("succeeded", true) else ("failed", true)) := by
      simp only [List.mem_cons, List.mem_singleton] at hmem
      rcases hmem with rfl | rfl | rfl | hmem
      · rfl
      · rfl
      · rfl
      · simp at hmem
    have ht : (manager.mapContainerStatus cs exit).2 = true := by
      rw [hcases]
      by_cases hx : exit = some 0 <;> simp [hx]
    rw [refresh_of_terminal rec cs exit now hrun hcid ht]
    by_cases hx : exit = some 0
    · subst hx
      simp [hcases]
    · simp [hcases, hx]

/-- Witness for C6: applying the reconciliation theorem at a concrete
running record and a backend report `{Status: exited, ExitCode: 0}`
yields the succeeded terminal outcome. -/
theorem refresh_maps_backend_status_witness :
    (let rec0 : manager.RunRecord :=
      { runID := "r1", capsuleID := "c1", capsulePath := "/caps/c1", status := "running"
        lifecycle := "daemon", runtimeTarget := "podman", containerID := "abc"
        exitCode := none, startedAt := "2025-10-11T00:00:00Z", endedAt := "", lastError := "" }
     let out := manager.refreshRunStatus rec0 (Except.ok ("exited", some 0)) "now"
     (out.record.status = "succeeded" ↔ (some 0 : Option Int) = some 0) ∧
     (out.record.status = "succeeded" ∨ out.record.status = "failed") ∧
     out.record.exitCode = some 0 ∧
     out.record.endedAt = "now" ∧
     (out.events.filter (fun e => e.phase = "runtime.exit")).length = 1 ∧
     (out.completion.map manager.StoreCompletion.exitCode) = some (some 0)) :=
  (refresh_maps_backend_status
    { runID := "r1", capsuleID := "c1", capsulePath := "/caps/c1", status := "running"
      lifecycle := "daemon", runtimeTarget := "podman", containerID := "abc"
      exitCode := none, startedAt := "2025-10-11T00:00:00Z", endedAt := "", lastError := "" }
    "exited" (some 0) "now" rfl (by decide)).2 (by decide)

/-- Every character produced by the fuelled decimal expansion is a
decimal digit. -/
theorem decDigitsAux_all_digit (fuel : Nat) : ∀ n, n < fuel →
    ∀ c ∈ manager.decDigitsAux fuel n, c.isDigit = true := by
  induction fuel with
  | zero => intro n hn; omega
  | succ fuel ih =>
    intro n hn c hc
    unfold manager.decDigitsAux at hc
    by_cases h10 : n < 10
    · rw [if_pos h10] at hc
      rw [List.mem_singleton] at hc
      subst hc
      interval_cases n <;> decide
    · rw [if_neg h10] at hc
      rcases List.mem_append.mp hc with hc | hc
      · exact ih (n / 10) (by omega) c hc
      · rw [List.mem_singleton] at hc
        subst hc
        have hm : n % 10 < 10 := Nat.mod_lt _ (by omega)
        set m := n % 10 with hmdef
        interval_cases m <;> decide

/-- The fuelled decimal expansion of `n < 10^w` has at most `w`
digits. -/
theorem decDigitsAux_length_le (fuel : Nat) : ∀ n w, n < fuel → n < 10 ^ w → 1 ≤ w →
    (manager.decDigitsAux fuel n).length ≤ w := by
  induction fuel with
  | zero => intro n w hn; omega
  | succ fuel ih =>
    intro n w hn hw h1
    unfold manager.decDigitsAux
    by_cases h10 : n < 10
    · simp [h10]
      omega
    · have hw2 : 2 ≤ w := by
        by_contra hlt
        have : w = 1 := by omega
        subst this
        simp at hw
        omega
      have hdiv : n / 10 < 10 ^ (w - 1) := by
        have : 10 ^ (w - 1) * 10 = 10 ^ w := by
          rw [← pow_succ]
          congr 1
          omega
        rw [Nat.div_lt_iff_lt_mul (by omega)]
        omega
      have := ih (n / 10) (w - 1) (by omega) hdiv (by omega)
      simp [h10]
      omega

/-- The fuelled decimal expansion is never empty when the fuel
suffices. -/
theorem decDigitsAux_ne_nil (fuel : Nat) : ∀ n, n < fuel →
    (manager.decDigitsAux fuel n).length ≥ 1 := by
  induction fuel with
  | zero => intro n hn; omega
  | succ fuel ih =>
    intro n hn
    unfold manager.decDigitsAux
    by_cases h10 : n < 10 <;> simp [h10]

/-- For `n < 10^w`, Go's `%0<w>d` produces exactly `w` characters, all
decimal digits. -/
theorem fmtNat_spec (w n : Nat) (hw : 1 ≤ w) (hn : n < 10 ^ w) :
    (manager.fmtNat w n).length = w ∧ (manager.fmtNat w n).all Char.isDigit = true := by
  have hle : (manager.decDigits n).length ≤ w :=
    decDigitsAux_length_le (n + 1) n w (by omega) hn hw
  constructor
  · simp only [manager.fmtNat, List.length_append, List.length_replicate]
    omega
  · rw [List.all_eq_true]
    intro c hc
    simp only [manager.fmtNat, List.mem_append, List.mem_replicate] at hc
    rcases hc with hc | hc
    · rw [hc.2]; decide
    · exact decDigitsAux_all_digit (n + 1) n (by omega) c hc

/-- C9 counterexample: the run id generated at 2025-10-11 12:00:00 UTC
(nanosecond 0) does not have the claimed `<yyyymmdd>T<HHMMSS>Z<9
digits>` shape — the layout string `20060102t150405` emits a lowercase
`t` and no `Z`. -/
theorem makeRunID_not_claimed_form :
    manager.claimedRunIDForm (manager.makeRunID
      { year := 2025, month := 10, day := 11, hour := 12, minute := 0, second := 0,
        nanosecond := 0 }) = false := by
  decide

/-- C9 as amended: every generated run id is 8 date digits, a lowercase
`t`, 6 time digits and 9 nanosecond digits — no uppercase `T` and no
`Z` (bounds are those satisfied by every civil UTC timestamp). -/
theorem makeRunID_amended_form (t : manager.GoTime)
    (hy : t.year < 10000) (hmo : t.month < 100) (hd : t.day < 100)
    (hh : t.hour < 100) (hmi : t.minute < 100) (hs : t.second < 100)
    (hns : t.nanosecond < 1000000000) :
    ∃ date time ns : List Char,
      (manager.makeRunID t).data = date ++ 't' :: (time ++ ns) ∧
      date.length = 8 ∧ time.length = 6 ∧ ns.length = 9 ∧
      (date ++ time ++ ns).all Char.isDigit = true := by
  refine ⟨manager.fmtNat 4 t.year ++ manager.fmtNat 2 t.month ++ manager.fmtNat 2 t.day,
    manager.fmtNat 2 t.hour ++ manager.fmtNat 2 t.minute ++ manager.fmtNat 2 t.second,
    manager.fmtNat 9 t.nanosecond, ?_, ?_, ?_, ?_, ?_⟩
  · simp [manager.makeRunID, List.append_assoc]
  · have h1 := (fmtNat_spec 4 t.year (by omega) (by norm_num; omega)).1
    have h2 := (fmtNat_spec 2 t.month (by omega) (by norm_num; omega)).1
    have h3 := (fmtNat_spec 2 t.day (by omega) (by norm_num; omega)).1
    simp [List.length_append, h1, h2, h3]
  · have h1 := (fmtNat_spec 2 t.hour (by omega) (by norm_num; omega)).1
    have h2 := (fmtNat_spec 2 t.minute (by omega) (by norm_num; omega)).1
    have h3 := (fmtNat_spec 2 t.second (by omega) (by norm_num; omega)).1
    simp [List.length_append, h1, h2, h3]
  · exact (fmtNat_spec 9 t.nanosecond (by omega) (by norm_num; omega)).1
  · have h1 := (fmtNat_spec 4 t.year (by omega) (by norm_num; omega)).2
    have h2 := (fmtNat_spec 2 t.month (by omega) (by norm_num; omega)).2
    have h3 := (fmtNat_spec 2 t.day (by omega) (by norm_num; omega)).2
    have h4 := (fmtNat_spec 2 t.hour (by omega) (by norm_num; omega)).2
    have h5 := (fmtNat_spec 2 t.minute (by omega) (by norm_num; omega)).2
    have h6 := (fmtNat_spec 2 t.second (by omega) (by norm_num; omega)).2
    have h7 := (fmtNat_spec 9 t.nanosecond (by omega) (by norm_num; omega)).2
    simp [List.all_append, h1, h2, h3, h4, h5, h6, h7]

/-- C4: source-lock generation does not reject a symbolic link whose
target resolves outside the source root.  On a root containing
`external_link -> /outside/secret.txt`, `buildSourceLock` succeeds and
records a hash of the outside file's bytes under the link's relative
path, instead of failing as the claim (and the repository's own
`TestBuildSourceLockRejectsSymlinkOutsideSourceRoot`) requires. -/
theorem buildSourceLock_follows_escaping_symlink (hexF : List Nat → String) :
    locks.buildSourceLock hexF locks.escapingLinkFS "/src" [] ("", "") =
      Except.ok { version := "metaclaw.sourcelock/v1"
                  gitCommit := ""
                  gitTree := ""
                  files := [{ path := "a.txt", sha256 := hexF [104, 105] },
                            { path := "external_link", sha256 := hexF [115] }] } := by
  rfl

/-- C5: `hashPath` on a single-file skill hashes only the skill file's
own bytes.  Changing the sibling `capability.contract.yaml` from `c1`
to `c2` leaves the recorded digest unchanged (both runs return the
digest of the skill bytes alone), so the deps-lock digest is not a
function of the contract bytes as the claim (and the repository's own
`TestHashSkillPathIncludesContractForFileSkill`) requires. -/
theorem hashPath_ignores_contract (hexF : List Nat → String) (skill c1 c2 : List Nat) :
    locks.hashPath hexF
      [locks.FSEntry.file "/r/skill.sh" skill,
       locks.FSEntry.file "/r/capability.contract.yaml" c1] "/r/skill.sh" =
        Except.ok (hexF skill) ∧
    locks.hashPath hexF
      [locks.FSEntry.file "/r/skill.sh" skill,
       locks.FSEntry.file "/r/capability.contract.yaml" c2] "/r/skill.sh" =
        Except.ok (hexF skill) := by
  exact ⟨rfl, rfl⟩

/-- C7: upgrading to a byte-identical template again reports the
managed file as updated, not skipped.  With the template and project
both holding `v1bytes` at `README.md` and the lock recording its hash,
the loop of `project.Upgrade` re-copies the file and reports it in
`Updated`, leaving `Skipped` empty — there is no template-vs-project
comparison in the loop, contradicting the claim (and the repository's
own `TestUpgrade_SkipsWhenAlreadyUpToDate`). -/
theorem upgrade_same_template_reports_updated (hexF : List Nat → String)
    (pathMatch : String → String → Bool) (v1bytes : List Nat) :
    (project.upgradeFiles hexF pathMatch
        (fun p => if p = "README.md" then some v1bytes else none)
        [] true false false ["README.md"]
        { updated := [], added := [], skipped := [], conflicts := []
          projectFS := fun p => if p = "README.md" then some v1bytes else none
          managedHashes := [("README.md", hexF v1bytes)]
          backups := [] }).map
      (fun st => (st.updated, st.added, st.skipped, st.conflicts)) =
      Except.ok (["README.md"], [], [], []) := by
  by_cases h0 : hexF v1bytes = "" <;>
    simp [project.upgradeFiles, project.matchAny, project.conflictDecision,
      project.copyAndReport, project.sha256File, mapLookup, mapInsert, Except.map, h0]

/-- Witness for the amended C9: the amended form holds at a concrete
instant. -/
theorem makeRunID_amended_form_witness :
    ∃ date time ns : List Char,
      (manager.makeRunID
        { year := 2025, month := 10, day := 11, hour := 12, minute := 30, second := 59,
          nanosecond := 123456789 }).data = date ++ 't' :: (time ++ ns) ∧
      date.length = 8 ∧ time.length = 6 ∧ ns.length = 9 ∧
      (date ++ time ++ ns).all Char.isDigit = true :=
  makeRunID_amended_form
    { year := 2025, month := 10, day := 11, hour := 12, minute := 30, second := 59,
      nanosecond := 123456789 }
    (by decide) (by decide) (by decide) (by decide) (by decide) (by decide) (by decide)

end Metaclaw
